import Mathlib

/- Shallow embedding of src/sshconfig_to_iterm.py, an SSH-config to iTerm2
   dynamic-profile converter.  Strings are manipulated through their
   character lists so that every definition reduces inside the kernel.
   The filesystem, the glob facility, the environment and the random UUID
   source are modelled as explicit parameters. -/

/-- Characters of a string with surrounding whitespace removed, the
    char-list core of Python str.strip(). -/
def trimChars (cs : List Char) : List Char :=
  ((cs.dropWhile Char.isWhitespace).reverse.dropWhile Char.isWhitespace).reverse

/-- Python str.strip() in its whitespace form, as applied to config lines
    and include arguments. -/
def pyStrip (s : String) : String := String.mk (trimChars s.data)

/-- Python str.startswith with a single-character argument. -/
def headIs (s : String) (c : Char) : Bool :=
  match s.data with
  | [] => false
  | a :: _ => a == c

/-- Python str.endswith with a single-character argument. -/
def lastIs (s : String) (c : Char) : Bool :=
  match s.data.getLast? with
  | some a => a == c
  | none => false

/-- Accumulator loop behind splitTokens. -/
def splitTokensAux (cur : List Char) : List Char → List (List Char)
  | [] => if cur.isEmpty then [] else [cur.reverse]
  | c :: rest =>
    if c.isWhitespace then
      if cur.isEmpty then splitTokensAux [] rest
      else cur.reverse :: splitTokensAux [] rest
    else splitTokensAux (c :: cur) rest

/-- Python str.split() with no separator: split on runs of whitespace,
    producing no empty tokens. -/
def splitTokens (s : String) : List String := (splitTokensAux [] s.data).map String.mk

/-- Python str.lower(), restricted to the ASCII case mapping. -/
def lowerStr (s : String) : String := String.mk (s.data.map Char.toLower)

/-- Python " ".join(tokens). -/
def joinSpace : List String → String
  | [] => ""
  | [x] => x
  | x :: rest => x ++ " " ++ joinSpace rest

/-- Split on every slash, keeping empty components, as str.split("/") does
    inside posixpath.normpath. -/
def splitSlashAux (cur : List Char) : List Char → List (List Char)
  | [] => [cur.reverse]
  | c :: rest =>
    if c == '/' then cur.reverse :: splitSlashAux [] rest
    else splitSlashAux (c :: cur) rest

/-- Python "/".join(components). -/
def joinSlash : List String → String
  | [] => ""
  | [x] => x
  | x :: rest => x ++ "/" ++ joinSlash rest

/-- Number of initial slashes posixpath.normpath preserves: two slashes are
    kept verbatim, one or three or more collapse to a single slash. -/
def leadSlashes (cs : List Char) : Nat :=
  match cs with
  | '/' :: '/' :: '/' :: _ => 1
  | '/' :: '/' :: _ => 2
  | '/' :: _ => 1
  | _ => 0

/-- Component loop of posixpath.normpath: drop empty and dot components,
    cancel dot-dot against a previous component.  The accumulator is kept
    reversed, its head being the most recent component. -/
def normCompsAux (initialSlashes : Nat) (acc : List String) : List String → List String
  | [] => acc
  | comp :: rest =>
    if comp = "" ∨ comp = "." then normCompsAux initialSlashes acc rest
    else if comp ≠ ".." ∨ (initialSlashes = 0 ∧ acc = []) ∨ acc.head? = some ".." then
      normCompsAux initialSlashes (comp :: acc) rest
    else
      match acc with
      | [] => normCompsAux initialSlashes [] rest
      | _ :: accTail => normCompsAux initialSlashes accTail rest

/-- posixpath.normpath: purely syntactic path normalization. -/
def normpath (p : String) : String :=
  if p.data.isEmpty then "."
  else
    let slashes := leadSlashes p.data
    let comps := (splitSlashAux [] p.data).map String.mk
    let newComps := (normCompsAux slashes [] comps).reverse
    let res := String.mk (List.replicate slashes '/') ++ joinSlash newComps
    if res.data.isEmpty then "." else res

/-- posixpath.join for two components. -/
def joinPath (a b : String) : String :=
  if headIs b '/' then b
  else if a = "" ∨ lastIs a '/' then a ++ b
  else a ++ "/" ++ b

/-- posixpath.dirname. -/
def dirname (p : String) : String :=
  let head := (p.data.reverse.dropWhile (fun c => c != '/')).reverse
  if head.isEmpty then ""
  else if head.all (fun c => c == '/') then String.mk head
  else String.mk ((head.reverse.dropWhile (fun c => c == '/')).reverse)

/-- Filesystem and process environment seen by the program.  Regular files
    are listed with their text lines; globFn records the answers the glob
    library gives to each pattern; readable tells whether opening a path
    succeeds; realpathFn is the symlink-resolved identity of each path
    (ground truth the program never consults); envExpand models
    os.path.expandvars. -/
structure FS where
  files : List (String × List String)
  globFn : String → List String
  readable : String → Bool
  home : String
  cwd : String
  realpathFn : String → String
  envExpand : String → String

/-- Lines of the regular file at a path, when one exists there. -/
def FS.lookupFile (fs : FS) (p : String) : Option (List String) := fs.files.lookup p

/-- os.path.isfile. -/
def FS.isFile (fs : FS) (p : String) : Bool := (fs.lookupFile p).isSome

/-- os.path.exists, which in this model of regular files coincides with
    isFile. -/
def FS.pathExists (fs : FS) (p : String) : Bool := fs.isFile p

/-- Remove trailing slashes, as posixpath.expanduser does to the home
    directory before gluing the remainder on. -/
def rstripSlash (s : String) : String :=
  String.mk ((s.data.reverse.dropWhile (fun c => c == '/')).reverse)

/-- posixpath.expanduser for the plain tilde form; a tilde naming another
    user is returned unchanged, as Python does when the pwd lookup fails. -/
def expanduser (fs : FS) (p : String) : String :=
  match p.data with
  | ['~'] =>
    let uh := rstripSlash fs.home
    if uh.data.isEmpty then "/" else uh
  | '~' :: '/' :: rest =>
    let r := rstripSlash fs.home ++ String.mk ('/' :: rest)
    if r.data.isEmpty then "/" else r
  | _ => p

/-- os.path.isabs. -/
def isabs (p : String) : Bool := headIs p '/'

/-- os.path.abspath: join with the working directory when relative, then
    normalize; purely syntactic, with no symlink resolution. -/
def abspath (fs : FS) (p : String) : String :=
  if isabs p then normpath p else normpath (joinPath fs.cwd p)

/-- expand_path from the source: expanduser, then expandvars, then
    abspath. -/
def expand_path (fs : FS) (p : String) : String :=
  abspath fs (fs.envExpand (expanduser fs p))

/-- The apostrophe character, written by code point. -/
def squote : Char := Char.ofNat 39

/-- Python s[1:-1]: drop the first and last character. -/
def stripOuter (s : String) : String := String.mk ((s.data.drop 1).dropLast)

/-- Python sorted on strings: stable sort by the lexicographic order on
    code points. -/
def pySorted (l : List String) : List String := List.insertionSort (· ≤ ·) l

/-- resolve_includes from the source: strip the argument, strip one layer
    of matching surrounding quotes, expand a leading tilde, resolve a
    relative pattern against the including file's directory, glob, keep
    regular files, sort. -/
def resolve_includes (fs : FS) (include_line : String) (current_dir : String) : List String :=
  let pattern := pyStrip include_line
  let pattern :=
    if (headIs pattern '"' && lastIs pattern '"') || (headIs pattern squote && lastIs pattern squote)
    then stripOuter pattern else pattern
  let pattern := expanduser fs pattern
  let pattern := if isabs pattern then pattern else joinPath current_dir pattern
  let globMatches := fs.globFn pattern
  pySorted (globMatches.filter fs.isFile)

/-- One host alias extracted from a Host directive. -/
structure HostEntry where
  name : String
deriving DecidableEq, Repr

/-- Messages the program prints while resolving: the warning for an
    already-visited file, the warning for a missing file, the per-file
    parsing notice, the include-resolution notice, and the read-error
    report. -/
inductive Diag where
  | visitedSkip (path : String)
  | notFound (path : String)
  | parsing (path : String)
  | includeResolved (count : Nat)
  | readError (path : String)
deriving DecidableEq, Repr

/-- Result of resolving one config file: host entries in encounter order,
    the visited set after the call, and the messages printed. -/
structure PResult where
  hosts : List HostEntry
  visited : List String
  msgs : List Diag
deriving DecidableEq, Repr

/-- Sequential resolution of a list of included files, threading the
    visited set, as the for-loop over included_files does. -/
def parseIncludesAux (recur : String → List String → Option PResult) :
    List String → List String → Option PResult
  | [], visited => some ⟨[], visited, []⟩
  | f :: rest, visited =>
    match recur f visited with
    | none => none
    | some r1 =>
      match parseIncludesAux recur rest r1.visited with
      | none => none
      | some r2 => some ⟨r1.hosts ++ r2.hosts, r2.visited, r1.msgs ++ r2.msgs⟩

/-- Processing of a single config line: skip blanks, comments and
    argument-less directives, recurse through Include, collect non-wildcard
    Host aliases, ignore other keywords. -/
def lineStep (fs : FS) (recur : String → List String → Option PResult)
    (current_dir : String) (line : String) (visited : List String) : Option PResult :=
  let l := pyStrip line
  if l = "" then some ⟨[], visited, []⟩
  else if headIs l '#' then some ⟨[], visited, []⟩
  else
    match splitTokens l with
    | [] => some ⟨[], visited, []⟩
    | tok :: args =>
      if lowerStr tok = "include" then
        if args.isEmpty then some ⟨[], visited, []⟩
        else
          let included_files := resolve_includes fs (joinSpace args) current_dir
          let infoMsgs : List Diag :=
            if included_files.isEmpty then []
            else [Diag.includeResolved included_files.length]
          (parseIncludesAux recur included_files visited).map
            fun r => ⟨r.hosts, r.visited, infoMsgs ++ r.msgs⟩
      else if lowerStr tok = "host" then
        if args.isEmpty then some ⟨[], visited, []⟩
        else some ⟨(args.filter (fun a => a != "*")).map HostEntry.mk, visited, []⟩
      else some ⟨[], visited, []⟩

/-- The line loop of parse_config_file, threading the visited set and
    concatenating hosts and messages in file-read order. -/
def parseLinesAux (fs : FS) (recur : String → List String → Option PResult)
    (current_dir : String) : List String → List String → Option PResult
  | [], visited => some ⟨[], visited, []⟩
  | line :: rest, visited =>
    match lineStep fs recur current_dir line visited with
    | none => none
    | some r1 =>
      match parseLinesAux fs recur current_dir rest r1.visited with
      | none => none
      | some r2 => some ⟨r1.hosts ++ r2.hosts, r2.visited, r1.msgs ++ r2.msgs⟩

/-- parse_config_file from the source, with explicit recursion fuel: none
    signals fuel exhaustion and never occurs at sufficient fuel.  The path
    is taken through os.path.abspath, looked up in the visited set, marked
    visited, checked for existence and readability, and then read line by
    line. -/
def parse_config_file (fs : FS) : Nat → String → List String → Option PResult
  | 0, _, _ => none
  | fuel + 1, file_path, visited =>
    let fp := abspath fs file_path
    if fp ∈ visited then some ⟨[], visited, [Diag.visitedSkip fp]⟩
    else
      let visited1 := fp :: visited
      if !fs.pathExists fp then some ⟨[], visited1, [Diag.notFound fp]⟩
      else if !fs.readable fp then some ⟨[], visited1, [Diag.parsing fp, Diag.readError fp]⟩
      else
        match parseLinesAux fs (parse_config_file fs fuel) (dirname fp)
            ((fs.lookupFile fp).getD []) visited1 with
        | none => none
        | some r => some ⟨r.hosts, r.visited, Diag.parsing fp :: r.msgs⟩

/-- parse_ssh_config from the source: resolution from a fresh, empty
    visited set. -/
def parse_ssh_config (fs : FS) (fuel : Nat) (config_path : String) : Option PResult :=
  parse_config_file fs fuel config_path []

/-- Hex digit values of a natural number, fixed width, most significant
    first. -/
def hexDigits : Nat → Nat → List Nat
  | 0, _ => []
  | w + 1, n => hexDigits w (n / 16) ++ [n % 16]

/-- Lowercase hexadecimal digit character, as uuid string formatting
    produces. -/
def hexChar (d : Nat) : Char :=
  if d < 10 then Char.ofNat (48 + d) else Char.ofNat (87 + d)

/-- The thirty-two hex digit characters of a 128-bit value. -/
def uuidDigitChars (u : Nat) : List Char := (hexDigits 32 u).map hexChar

/-- Characters of str(uuid.UUID(int=u)): hex digits grouped 8-4-4-4-12 with
    dashes. -/
def uuidChars (u : Nat) : List Char :=
  let d := uuidDigitChars u
  d.take 8 ++ '-' :: (d.drop 8).take 4 ++ '-' :: (d.drop 12).take 4
    ++ '-' :: (d.drop 16).take 4 ++ '-' :: d.drop 20

/-- generate_guid from the source: str(uuid.uuid4()).upper(), with the drawn
    128-bit random value made an explicit argument. -/
def generate_guid (u : Nat) : String := String.mk ((uuidChars u).map Char.toUpper)

/-- Value of an uppercase hexadecimal digit character. -/
def upHexVal (c : Char) : Nat := if c.toNat ≥ 65 then c.toNat - 55 else c.toNat - 48

/-- Recover the 128-bit value from a formatted guid: drop the dashes and
    read the hex digits back. -/
def guidDecode (s : String) : Nat :=
  (s.data.filter (fun c => c != '-')).foldl (fun a c => 16 * a + upHexVal c) 0

/-- One generated iTerm2 profile record.  Field names follow the JSON keys
    of the source: Name, Guid, Dynamic Profile Parent Name, Custom Command,
    Command, Tags. -/
structure Profile where
  Name : String
  Guid : String
  dynamicProfileParentName : String
  customCommand : String
  Command : String
  Tags : List String
deriving DecidableEq, Repr

/-- create_profile from the source, with the drawn uuid value explicit. -/
def create_profile (host_name : String) (parent_profile : String) (u : Nat) : Profile :=
  { Name := host_name
    Guid := generate_guid u
    dynamicProfileParentName := parent_profile
    customCommand := "Yes"
    Command := "ssh " ++ host_name
    Tags := ["ssh"] }

/-- Indexed loop of generate_profiles: the i-th record consumes the i-th
    value of the uuid stream. -/
def generate_profilesFrom (parent_profile : String) (stream : Nat → Nat) :
    Nat → List HostEntry → List Profile
  | _, [] => []
  | i, h :: rest =>
    create_profile h.name parent_profile (stream i) ::
      generate_profilesFrom parent_profile stream (i + 1) rest

/-- generate_profiles from the source: one record per host, in input order,
    each with a fresh uuid draw. -/
def generate_profiles (hosts : List HostEntry) (parent_profile : String)
    (stream : Nat → Nat) : List Profile :=
  generate_profilesFrom parent_profile stream 0 hosts

/-- A record with its identifier blanked, used to state that generation is
    deterministic apart from the Guid field. -/
def clearGuid (p : Profile) : Profile := { p with Guid := "" }

/-- JSON values as the json library's dump and load see them: the document
    structure the program writes, with object fields in insertion order. -/
inductive JValue where
  | str (s : String)
  | arr (xs : List JValue)
  | obj (fields : List (String × JValue))

/-- Field lookup on a JSON object, the access a parse-back performs. -/
def JValue.getField : JValue → String → Option JValue
  | .obj fields, k => fields.lookup k
  | _, _ => none

/-- Elements of a JSON array. -/
def JValue.asArr : JValue → Option (List JValue)
  | .arr xs => some xs
  | _ => none

/-- Key list of a JSON object, in serialization order. -/
def JValue.keys : JValue → List String
  | .obj fields => fields.map Prod.fst
  | _ => []

/-- The JSON object written for one profile, fields in the fixed source
    order. -/
def profileJson (p : Profile) : JValue :=
  .obj [("Name", .str p.Name),
        ("Guid", .str p.Guid),
        ("Dynamic Profile Parent Name", .str p.dynamicProfileParentName),
        ("Custom Command", .str p.customCommand),
        ("Command", .str p.Command),
        ("Tags", .arr (p.Tags.map .str))]

/-- write_single_file from the source: the document dumped to the single
    output file, all profiles under the top-level Profiles key. -/
def write_single_file (profiles : List Profile) : JValue :=
  .obj [("Profiles", .arr (profiles.map profileJson))]

/-- Parse-back of a single-file document: read the Profiles key as an
    array. -/
def readProfilesBack (doc : JValue) : Option (List JValue) :=
  (doc.getField "Profiles").bind JValue.asArr

/-- Characters with every occurrence of a given character replaced by a
    replacement string, the core of Python str.replace for one-character
    needles. -/
def replaceChar (c : Char) (r : List Char) : List Char → List Char
  | [] => []
  | a :: rest =>
    if a == c then r ++ replaceChar c r rest else a :: replaceChar c r rest

/-- Output filename write_multi_file derives from a record: the Name with
    slashes replaced by underscores and stars by the word wildcard, plus
    the json extension. -/
def profileFilename (p : Profile) : String :=
  String.mk (replaceChar '*' "wildcard".data (replaceChar '/' ['_'] p.Name.data)) ++ ".json"

/-- The document write_multi_file dumps for one record: a Profiles array
    holding just that record. -/
def singleDoc (p : Profile) : JValue := .obj [("Profiles", .arr [profileJson p])]

/-- write_multi_file from the source, as the sequence of write operations
    it performs inside the output directory, in order. -/
def write_multi_file (profiles : List Profile) : List (String × JValue) :=
  profiles.map fun p => (profileFilename p, singleDoc p)

/-- Contents of the output directory after a sequence of writes: each write
    replaces whatever was at its filename. -/
def diskAfter (writes : List (String × JValue)) (path : String) : Option JValue :=
  writes.foldl (fun acc w => if w.1 = path then some w.2 else acc) none

/-- Command-line arguments after argparse, as main receives them. -/
structure Args where
  config : String
  output_dir : String
  multi_file : Bool
  parent_profile : String
  yes : Bool

/-- The four ways a run of main reaches its end. -/
inductive TermCase where
  | configNotFound
  | noHosts
  | cancelled
  | success
deriving DecidableEq, Repr

/-- Terminal outcome of main: which case ends the run and the process exit
    status.  A missing config exits 1; an empty host list exits 0 with a
    message; a declined confirmation exits 0; success falls off the end of
    main, which is also status 0. -/
def mainOutcome (fs : FS) (fuel : Nat) (args : Args) (userConfirms : Bool) :
    Option (TermCase × Nat) :=
  let config_path := expand_path fs args.config
  if !fs.pathExists config_path then some (.configNotFound, 1)
  else
    match parse_ssh_config fs fuel config_path with
    | none => none
    | some r =>
      if r.hosts.isEmpty then some (.noHosts, 0)
      else if !args.yes && !userConfirms then some (.cancelled, 0)
      else some (.success, 0)

/-- Quote stripping as the spec words it: one layer of matching surrounding
    double quotes, or else one layer of matching surrounding single quotes,
    when present. -/
def specStripQuotes (s : String) : String :=
  if headIs s '"' && lastIs s '"' then stripOuter s
  else if headIs s squote && lastIs s squote then stripOuter s
  else s

/-- Modelled from the spec: include-argument resolution as section 4.1 step
    d words it, to be compared with resolve_includes from the source: strip
    one layer of matching surrounding quotes if present, expand a leading
    tilde to the home directory, resolve a non-absolute pattern relative to
    the directory containing the current file, expand it as a filesystem
    glob, keep only matches that are regular files, and sort the matches
    lexicographically by path. -/
def specResolveIncludes (fs : FS) (include_arg : String) (current_dir : String) :
    List String :=
  let p1 := specStripQuotes include_arg
  let p2 := expanduser fs p1
  let p3 := if isabs p2 then p2 else joinPath current_dir p2
  let kept := (fs.globFn p3).filter fs.isFile
  pySorted kept

/-- Paths of the parsing notices in a message list: exactly the files the
    resolver actually opened and read, in order. -/
def parsingsOf (msgs : List Diag) : List String :=
  msgs.filterMap fun m =>
    match m with
    | Diag.parsing p => some p
    | _ => none

/-- Number of existing file paths not yet in the visited set: the measure
    that bounds the recursion depth of the resolver. -/
def unvisitedCount (fs : FS) (visited : List String) : Nat :=
  ((fs.files.map Prod.fst).filter (fun k => decide (k ∉ visited))).length

/-- Characters allowed in an uppercased guid: decimal digits, uppercase hex
    letters, and the dash. -/
def guidCharOK (c : Char) : Bool :=
  c.isDigit || (65 ≤ c.toNat && c.toNat ≤ 70) || c == '-'

/- Concrete filesystems for the scenarios and counterexamples below. -/

/-- Filesystem of the concrete ordering scenario: the config declares
    alpha and beta, then a wildcard, then includes other.conf, which
    declares gamma. -/
def scenFS : FS where
  files := [("/ssh/config", ["Host alpha beta", "Host *", "Include other.conf"]),
            ("/ssh/other.conf", ["Host gamma"])]
  globFn := fun pat => if pat = "/ssh/other.conf" then ["/ssh/other.conf"] else []
  readable := fun _ => true
  home := "/home/u"
  cwd := "/"
  realpathFn := fun p => p
  envExpand := fun p => p

/-- Filesystem with a two-file include cycle: file a includes file b, which
    includes file a again. -/
def cycFS : FS where
  files := [("/a", ["Host h1", "Include /b"]), ("/b", ["Include /a", "Host h2"])]
  globFn := fun pat => if pat = "/a" ∨ pat = "/b" then [pat] else []
  readable := fun _ => true
  home := "/home/u"
  cwd := "/"
  realpathFn := fun p => p
  envExpand := fun p => p

/-- Filesystem where one regular file is reachable both by its real path
    and through a symlink: both spellings hold the same content and
    realpathFn identifies them. -/
def symFS : FS where
  files := [("/cfg", ["Include /a/conf", "Include /b/link"]),
            ("/a/conf", ["Host x"]), ("/b/link", ["Host x"])]
  globFn := fun pat => if pat = "/a/conf" ∨ pat = "/b/link" then [pat] else []
  readable := fun _ => true
  home := "/home/u"
  cwd := "/"
  realpathFn := fun p => if p = "/b/link" then "/a/conf" else p
  envExpand := fun p => p

/-- Filesystem whose config has an Include pattern matching zero files,
    followed by a Host line. -/
def zmFS : FS where
  files := [("/cfg", ["Include missing.d/stuff", "Host alpha"])]
  globFn := fun _ => []
  readable := fun _ => true
  home := "/home/u"
  cwd := "/"
  realpathFn := fun p => p
  envExpand := fun p => p

/-- Filesystem whose config declares an alias containing a wildcard
    character next to the bare wildcard alias. -/
def starFS : FS where
  files := [("/cfg", ["Host web-* *"])]
  globFn := fun _ => []
  readable := fun _ => true
  home := "/root"
  cwd := "/"
  realpathFn := fun p => p
  envExpand := fun p => p

/-- Filesystem whose config exists but declares no hosts. -/
def noHostsFS : FS where
  files := [("/root/cfg", ["# nothing here"])]
  globFn := fun _ => []
  realpathFn := fun p => p
  readable := fun _ => true
  home := "/root"
  cwd := "/"
  envExpand := fun p => p

/-- Default argument set used by the terminal-outcome examples. -/
def defaultArgs (cfg : String) : Args :=
  { config := cfg
    output_dir := "/out"
    multi_file := false
    parent_profile := "Default"
    yes := true }

/-- A recursive-resolution function only ever extends the visited set it is
    given, keeping the old set as a suffix. -/
def VisitedExtends (recur : String → List String → Option PResult) : Prop :=
  ∀ p v r, recur p v = some r → v <:+ r.visited

/-- No entry of a host list is the bare wildcard alias. -/
def NoStarIn (hosts : List HostEntry) : Prop :=
  ∀ e ∈ hosts, e.name ≠ "*"

/-- A recursive-resolution function never materializes the bare wildcard
    alias. -/
def RecurNoStar (recur : String → List String → Option PResult) : Prop :=
  ∀ p v r, recur p v = some r → NoStarIn r.hosts

/-- A recursive-resolution function opens each file at most once: the files
    it reports parsing are pairwise distinct, fresh with respect to the
    visited set it started from, and recorded in the visited set it
    returns. -/
def FreshParsings (recur : String → List String → Option PResult) : Prop :=
  ∀ p v r, recur p v = some r →
    (parsingsOf r.msgs).Nodup ∧ ∀ q ∈ parsingsOf r.msgs, q ∉ v ∧ q ∈ r.visited

/-- A recursive-resolution function succeeds whenever fewer than n existing
    files remain unvisited. -/
def TotalBelow (fs : FS) (recur : String → List String → Option PResult) (n : Nat) : Prop :=
  ∀ p v, unvisitedCount fs v < n → (recur p v).isSome

/- Theorems. -/

theorem parseLinesAux_append (fs : FS) (recur : String → List String → Option PResult)
    (cd : String) (ls₁ ls₂ : List String) (v : List String) :
    parseLinesAux fs recur cd (ls₁ ++ ls₂) v =
      match parseLinesAux fs recur cd ls₁ v with
      | none => none
      | some r1 =>
        match parseLinesAux fs recur cd ls₂ r1.visited with
        | none => none
        | some r2 => some ⟨r1.hosts ++ r2.hosts, r2.visited, r1.msgs ++ r2.msgs⟩ := by
  induction ls₁ generalizing v with
  | nil =>
    simp only [List.nil_append, parseLinesAux]
    cases h : parseLinesAux fs recur cd ls₂ v with
    | none => rfl
    | some r2 => simp
  | cons line rest ih =>
    simp only [List.cons_append, parseLinesAux]
    cases h1 : lineStep fs recur cd line v with
    | none => rfl
    | some r1 =>
      simp only [List.append_eq]
      rw [ih r1.visited]
      cases h2 : parseLinesAux fs recur cd rest r1.visited with
      | none => rfl
      | some r2 =>
        cases h3 : parseLinesAux fs recur cd ls₂ r2.visited with
        | none => simp [h3]
        | some r3 => simp [h3, List.append_assoc]

/-- C1: Resolve returns host entries in strict file-read order: the hosts
    of a config prefix are emitted before, and interleaved at the point of,
    the hosts contributed by later lines, includes inlined where they
    appear; concretely, a config containing Host alpha beta, then Host
    wildcard, then Include other.conf whose target declares gamma resolves
    to exactly alpha, beta, gamma in that order. -/
theorem resolve_strict_file_read_order :
    (∀ (fs : FS) (recur : String → List String → Option PResult) (cd : String)
      (ls₁ ls₂ : List String) (v : List String),
      parseLinesAux fs recur cd (ls₁ ++ ls₂) v =
        match parseLinesAux fs recur cd ls₁ v with
        | none => none
        | some r1 =>
          match parseLinesAux fs recur cd ls₂ r1.visited with
          | none => none
          | some r2 => some ⟨r1.hosts ++ r2.hosts, r2.visited, r1.msgs ++ r2.msgs⟩)
    ∧ parse_ssh_config scenFS 2 "/ssh/config" =
        some ⟨[⟨"alpha"⟩, ⟨"beta"⟩, ⟨"gamma"⟩],
          ["/ssh/other.conf", "/ssh/config"],
          [Diag.parsing "/ssh/config", Diag.includeResolved 1,
           Diag.parsing "/ssh/other.conf"]⟩ :=
  ⟨parseLinesAux_append, by decide⟩

theorem parseIncludesAux_noStar {recur : String → List String → Option PResult}
    (hrec : RecurNoStar recur) :
    ∀ (files v : List String) (r : PResult),
      parseIncludesAux recur files v = some r → NoStarIn r.hosts := by
  intro files
  induction files with
  | nil =>
    intro v r h
    simp only [parseIncludesAux] at h
    cases h
    intro e he
    simp at he
  | cons f rest ih =>
    intro v r h
    simp only [parseIncludesAux] at h
    cases h1 : recur f v with
    | none => rw [h1] at h; cases h
    | some r1 =>
      rw [h1] at h
      dsimp only at h
      cases h2 : parseIncludesAux recur rest r1.visited with
      | none => rw [h2] at h; cases h
      | some r2 =>
        rw [h2] at h
        dsimp only at h
        cases h
        intro e he
        rcases List.mem_append.mp he with h' | h'
        · exact hrec f v r1 h1 e h'
        · exact ih r1.visited r2 h2 e h'

theorem lineStep_noStar {fs : FS} {recur : String → List String → Option PResult}
    (hrec : RecurNoStar recur) (cd line : String) (v : List String) (r : PResult)
    (h : lineStep fs recur cd line v = some r) : NoStarIn r.hosts := by
  unfold lineStep at h
  dsimp only at h
  split at h
  · cases h; intro e he; simp at he
  · split at h
    · cases h; intro e he; simp at he
    · split at h
      · cases h; intro e he; simp at he
      · rename_i tok args heq
        split at h
        · split at h
          · cases h; intro e he; simp at he
          · cases hinc : parseIncludesAux recur
                (resolve_includes fs (joinSpace args) cd) v with
            | none => rw [hinc] at h; cases h
            | some ri =>
              rw [hinc] at h
              simp only [Option.map_some'] at h
              cases h
              intro e he
              exact parseIncludesAux_noStar hrec _ v ri hinc e he
        · split at h
          · split at h
            · cases h; intro e he; simp at he
            · cases h
              intro e he
              rcases List.mem_map.mp he with ⟨a, ha, rfl⟩
              have := (List.mem_filter.mp ha).2
              simpa using this
          · cases h; intro e he; simp at he

theorem parseLinesAux_noStar {fs : FS} {recur : String → List String → Option PResult}
    (hrec : RecurNoStar recur) (cd : String) :
    ∀ (lines v : List String) (r : PResult),
      parseLinesAux fs recur cd lines v = some r → NoStarIn r.hosts := by
  intro lines
  induction lines with
  | nil =>
    intro v r h
    simp only [parseLinesAux] at h
    cases h
    intro e he
    simp at he
  | cons line rest ih =>
    intro v r h
    simp only [parseLinesAux] at h
    cases h1 : lineStep fs recur cd line v with
    | none => rw [h1] at h; cases h
    | some r1 =>
      rw [h1] at h
      dsimp only at h
      cases h2 : parseLinesAux fs recur cd rest r1.visited with
      | none => rw [h2] at h; cases h
      | some r2 =>
        rw [h2] at h
        dsimp only at h
        cases h
        intro e he
        rcases List.mem_append.mp he with h' | h'
        · exact lineStep_noStar hrec cd line v r1 h1 e h'
        · exact ih r1.visited r2 h2 e h'

theorem parse_config_file_noStar (fs : FS) :
    ∀ fuel : Nat, RecurNoStar (parse_config_file fs fuel) := by
  intro fuel
  induction fuel with
  | zero => intro p v r h; cases h
  | succ n ih =>
    intro p v r h
    unfold parse_config_file at h
    dsimp only at h
    split at h
    · cases h; intro e he; simp at he
    · split at h
      · cases h; intro e he; simp at he
      · split at h
        · cases h; intro e he; simp at he
        · cases hl : parseLinesAux fs (parse_config_file fs n) (dirname (abspath fs p))
              ((fs.lookupFile (abspath fs p)).getD []) (abspath fs p :: v) with
          | none => rw [hl] at h; cases h
          | some rl =>
            rw [hl] at h
            dsimp only at h
            cases h
            intro e he
            exact parseLinesAux_noStar ih _ _ _ rl hl e he

/-- C3: the host alias token literally equal to the wildcard is never
    materialized into a HostEntry, in any file of the resolution; alias
    tokens merely containing a wildcard character are kept, as the concrete
    web-star config shows. -/
theorem wildcard_alias_never_materialized :
    (∀ (fs : FS) (fuel : Nat) (p : String) (v : List String) (r : PResult),
      parse_config_file fs fuel p v = some r → ∀ e ∈ r.hosts, e.name ≠ "*")
    ∧ parse_ssh_config starFS 1 "/cfg" =
        some ⟨[⟨"web-*"⟩], ["/cfg"], [Diag.parsing "/cfg"]⟩ :=
  ⟨fun fs fuel p v r h => parse_config_file_noStar fs fuel p v r h, by decide⟩

/-- Witness for C3 at the concrete web-star config. -/
theorem wildcard_alias_never_materialized_witness :
    ∀ e ∈ ([⟨"web-*"⟩] : List HostEntry), e.name ≠ "*" :=
  wildcard_alias_never_materialized.1 starFS 1 "/cfg" []
    ⟨[⟨"web-*"⟩], ["/cfg"], [Diag.parsing "/cfg"]⟩ (by decide)

theorem stripQuotes_eq (s : String) :
    (if (headIs s '"' && lastIs s '"') || (headIs s squote && lastIs s squote)
     then stripOuter s else s) = specStripQuotes s := by
  unfold specStripQuotes
  cases h1 : headIs s '"' && lastIs s '"' <;>
    cases h2 : headIs s squote && lastIs s squote <;> simp [h1, h2]

/-- C2: include-directive resolution behaves exactly as specified: on any
    reconstructed include argument (a token join, hence already free of
    surrounding whitespace) the source's resolve_includes coincides with
    the spec-worded pipeline, its output is lexicographically sorted, and
    it is a permutation of the regular-file glob matches of the
    transformed pattern. -/
theorem resolve_includes_matches_spec (fs : FS) (include_arg current_dir : String)
    (harg : pyStrip include_arg = include_arg) :
    resolve_includes fs include_arg current_dir =
      specResolveIncludes fs include_arg current_dir
    ∧ List.Sorted (· ≤ ·) (resolve_includes fs include_arg current_dir)
    ∧ List.Perm (resolve_includes fs include_arg current_dir)
        ((fs.globFn (
          let p2 := expanduser fs (specStripQuotes include_arg)
          if isabs p2 then p2 else joinPath current_dir p2)).filter fs.isFile) := by
  have heq : resolve_includes fs include_arg current_dir =
      specResolveIncludes fs include_arg current_dir := by
    unfold resolve_includes specResolveIncludes
    rw [harg]
    dsimp only
    rw [stripQuotes_eq]
  refine ⟨heq, ?_, ?_⟩
  · unfold resolve_includes pySorted
    exact List.sorted_insertionSort _ _
  · rw [heq]
    unfold specResolveIncludes pySorted
    exact List.perm_insertionSort _ _

/-- Witness for C2 at the include argument of the concrete scenario. -/
theorem resolve_includes_matches_spec_witness :
    resolve_includes scenFS "other.conf" "/ssh" =
      specResolveIncludes scenFS "other.conf" "/ssh" :=
  (resolve_includes_matches_spec scenFS "other.conf" "/ssh" (by decide)).1

theorem diskAfter_foldl (path : String) :
    ∀ (ws : List (String × JValue)) (acc : Option JValue),
      ws.foldl (fun acc w => if w.1 = path then some w.2 else acc) acc =
        match ws.reverse.find? (fun w => decide (w.1 = path)) with
        | some w => some w.2
        | none => acc := by
  intro ws
  induction ws with
  | nil => intro acc; rfl
  | cons w ws ih =>
    intro acc
    simp only [List.foldl_cons, List.reverse_cons, List.find?_append]
    rw [ih]
    cases hf : ws.reverse.find? (fun w => decide (w.1 = path)) with
    | some u => rfl
    | none =>
      by_cases hw : w.1 = path <;> simp [List.find?, hw]

/-- The directory contents after write_multi_file: each path holds the
    document of the most recent record written to it. -/
theorem diskAfter_lastWrite (writes : List (String × JValue)) (path : String) :
    diskAfter writes path =
      (writes.reverse.find? (fun w => decide (w.1 = path))).map Prod.snd := by
  unfold diskAfter
  rw [diskAfter_foldl]
  cases writes.reverse.find? (fun w => decide (w.1 = path)) <;> rfl

/-- C10: the multi-file target name is derived solely from the Name field,
    so records with equal names go to the same path, the later write
    replaces the earlier one, and a run with duplicate aliases leaves
    fewer files on disk than records generated; concretely, two records
    named db with distinct guids both target db.json and only the second
    survives. -/
theorem multi_file_duplicate_names_overwrite :
    (∀ p q : Profile, p.Name = q.Name → profileFilename p = profileFilename q)
    ∧ (∀ (ps : List Profile) (path : String),
        diskAfter (write_multi_file ps) path =
          ((write_multi_file ps).reverse.find? (fun w => decide (w.1 = path))).map Prod.snd)
    ∧ ((write_multi_file
          [⟨"db", generate_guid 1, "Default", "Yes", "ssh db", ["ssh"]⟩,
           ⟨"db", generate_guid 2, "Default", "Yes", "ssh db", ["ssh"]⟩]).map Prod.fst
        = ["db.json", "db.json"])
    ∧ diskAfter (write_multi_file
          [⟨"db", generate_guid 1, "Default", "Yes", "ssh db", ["ssh"]⟩,
           ⟨"db", generate_guid 2, "Default", "Yes", "ssh db", ["ssh"]⟩]) "db.json"
        = some (singleDoc ⟨"db", generate_guid 2, "Default", "Yes", "ssh db", ["ssh"]⟩)
    ∧ ((write_multi_file
          [⟨"db", generate_guid 1, "Default", "Yes", "ssh db", ["ssh"]⟩,
           ⟨"db", generate_guid 2, "Default", "Yes", "ssh db", ["ssh"]⟩]).map Prod.fst).dedup.length
        < 2 := by
  refine ⟨?_, fun ps path => diskAfter_lastWrite _ _, by decide, rfl, by decide⟩
  intro p q hpq
  unfold profileFilename
  rw [hpq]

/-- Witness for C10: equal names give equal target filenames at a concrete
    pair of records. -/
theorem multi_file_duplicate_names_overwrite_witness :
    profileFilename ⟨"db", generate_guid 1, "Default", "Yes", "ssh db", ["ssh"]⟩ =
      profileFilename ⟨"db", generate_guid 2, "Default", "Yes", "ssh db", ["ssh"]⟩ :=
  multi_file_duplicate_names_overwrite.1 _ _ rfl

theorem genFrom_commands (parent : String) (stream : Nat → Nat) :
    ∀ (hosts : List HostEntry) (i : Nat),
      (generate_profilesFrom parent stream i hosts).map
          (fun p => (profileJson p).getField "Command")
        = hosts.map (fun h => some (JValue.str ("ssh " ++ h.name))) := by
  intro hosts
  induction hosts with
  | nil => intro i; rfl
  | cons h rest ih =>
    intro i
    simp only [generate_profilesFrom, List.map_cons]
    rw [ih]
    rfl

/-- C8: serializing N records in single-file mode yields a document whose
    top-level Profiles key holds an array, each profile object carrying its
    six fields in the fixed order Name, Guid, parent reference, custom
    command flag, command, tags, and parsing the document back returns
    exactly N profile objects with the original names and commands, the
    generated ones being ssh followed by the alias. -/
theorem single_file_roundtrip :
    ∀ ps : List Profile,
      readProfilesBack (write_single_file ps) = some (ps.map profileJson)
      ∧ (ps.map profileJson).length = ps.length
      ∧ (ps.map profileJson).map (fun j => j.getField "Name")
          = ps.map (fun p => some (JValue.str p.Name))
      ∧ (ps.map profileJson).map (fun j => j.getField "Command")
          = ps.map (fun p => some (JValue.str p.Command))
      ∧ (∀ p : Profile, (profileJson p).keys =
          ["Name", "Guid", "Dynamic Profile Parent Name", "Custom Command", "Command", "Tags"])
      ∧ (∀ (hosts : List HostEntry) (parent : String) (stream : Nat → Nat),
          ((generate_profiles hosts parent stream).map profileJson).map
              (fun j => j.getField "Command")
            = hosts.map (fun h => some (JValue.str ("ssh " ++ h.name)))) := by
  intro ps
  refine ⟨rfl, List.length_map _ _, ?_, ?_, fun p => rfl, ?_⟩
  · simp only [List.map_map]
    congr 1
  · simp only [List.map_map]
    congr 1
  · intro hosts parent stream
    simp only [List.map_map]
    exact genFrom_commands parent stream hosts 0

/-- Counterexample to C9: a run that finds zero hosts and a run that
    succeeds are different terminal cases yet share exit status zero, so
    the three cases are not distinguished as distinct exit statuses. -/
theorem exit_status_counterexample :
    mainOutcome noHostsFS 1 (defaultArgs "/root/cfg") true = some (TermCase.noHosts, 0)
    ∧ mainOutcome zmFS 1 (defaultArgs "/cfg") true = some (TermCase.success, 0)
    ∧ TermCase.noHosts ≠ TermCase.success := by
  exact ⟨by decide, by decide, by decide⟩

/-- C9 amended: only the absent input file is distinguished by exit
    status: it exits with status one, while zero hosts found, a declined
    confirmation, and success all terminate with status zero and differ
    only in the message printed. -/
theorem exit_status_policy (fs : FS) (fuel : Nat) (args : Args) (confirm : Bool)
    (tc : TermCase) (code : Nat)
    (h : mainOutcome fs fuel args confirm = some (tc, code)) :
    code = if tc = TermCase.configNotFound then 1 else 0 := by
  unfold mainOutcome at h
  dsimp only at h
  by_cases hex : (!fs.pathExists (expand_path fs args.config)) = true
  · rw [if_pos hex] at h
    simp only [Option.some.injEq, Prod.mk.injEq] at h
    obtain ⟨h1, h2⟩ := h
    subst h1
    subst h2
    decide
  · rw [if_neg hex] at h
    cases hp : parse_ssh_config fs fuel (expand_path fs args.config) with
    | none => rw [hp] at h; cases h
    | some r =>
      rw [hp] at h
      dsimp only at h
      by_cases hh : r.hosts.isEmpty = true
      · rw [if_pos hh] at h
        simp only [Option.some.injEq, Prod.mk.injEq] at h
        obtain ⟨h1, h2⟩ := h
        subst h1
        subst h2
        decide
      · rw [if_neg hh] at h
        by_cases hc : (!args.yes && !confirm) = true
        · rw [if_pos hc] at h
          simp only [Option.some.injEq, Prod.mk.injEq] at h
          obtain ⟨h1, h2⟩ := h
          subst h1
          subst h2
          decide
        · rw [if_neg hc] at h
          simp only [Option.some.injEq, Prod.mk.injEq] at h
          obtain ⟨h1, h2⟩ := h
          subst h1
          subst h2
          decide

/-- Witness for C9 amended at the zero-hosts run. -/
theorem exit_status_policy_witness :
    (0 : Nat) = if TermCase.noHosts = TermCase.configNotFound then 1 else 0 :=
  exit_status_policy noHostsFS 1 (defaultArgs "/root/cfg") true TermCase.noHosts 0 (by decide)

theorem hexDigits_lt : ∀ (w n : Nat), ∀ d ∈ hexDigits w n, d < 16 := by
  intro w
  induction w with
  | zero => intro n d hd; simp [hexDigits] at hd
  | succ w ih =>
    intro n d hd
    simp only [hexDigits, List.mem_append, List.mem_singleton] at hd
    rcases hd with hd | hd
    · exact ih (n / 16) d hd
    · subst hd; exact Nat.mod_lt _ (by norm_num)

theorem foldl_hexDigits : ∀ (w n acc : Nat),
    (hexDigits w n).foldl (fun a d => 16 * a + d) acc = acc * 16 ^ w + n % 16 ^ w := by
  intro w
  induction w with
  | zero => intro n acc; simp [hexDigits, Nat.mod_one]
  | succ w ih =>
    intro n acc
    simp only [hexDigits, List.foldl_append, List.foldl_cons, List.foldl_nil]
    rw [ih]
    have h1 : (16:Nat) ^ (w + 1) = 16 * 16 ^ w := by ring
    have h2 : n % (16 * 16 ^ w) = n % 16 + 16 * (n / 16 % 16 ^ w) := Nat.mod_mul
    rw [h1, h2]
    ring

theorem upHex_toUpper_hexChar : ∀ d, d < 16 → upHexVal (Char.toUpper (hexChar d)) = d := by
  decide

theorem toUpper_hexChar_ne_dash : ∀ d, d < 16 → (Char.toUpper (hexChar d) != '-') = true := by
  decide

theorem guidCharOK_upper_hexChar : ∀ d, d < 16 → guidCharOK (Char.toUpper (hexChar d)) = true := by
  decide

theorem unhex_mapped : ∀ l : List Nat, (∀ d ∈ l, d < 16) → ∀ acc : Nat,
    (l.map (fun d => Char.toUpper (hexChar d))).foldl (fun a c => 16 * a + upHexVal c) acc
      = l.foldl (fun a d => 16 * a + d) acc := by
  intro l
  induction l with
  | nil => intro _ acc; rfl
  | cons d rest ih =>
    intro hl acc
    simp only [List.map_cons, List.foldl_cons]
    rw [upHex_toUpper_hexChar d (hl d (List.mem_cons_self d rest))]
    exact ih (fun x hx => hl x (List.mem_cons_of_mem d hx)) _

theorem filter_uuid_assemble (D : List Char) (hD : ∀ c ∈ D, (c != '-') = true) :
    (D.take 8 ++ '-' :: ((D.drop 8).take 4 ++ '-' :: ((D.drop 12).take 4
      ++ '-' :: ((D.drop 16).take 4 ++ '-' :: D.drop 20)))).filter (fun c => c != '-') = D := by
  have hseg : ∀ l : List Char, l ⊆ D → l.filter (fun c => c != '-') = l := by
    intro l hl
    exact List.filter_eq_self.mpr fun c hc => hD c (hl hc)
  have hsub8 : D.take 8 ⊆ D := List.take_subset _ _
  have hsub84 : (D.drop 8).take 4 ⊆ D := (List.take_subset _ _).trans (List.drop_subset _ _)
  have hsub124 : (D.drop 12).take 4 ⊆ D := (List.take_subset _ _).trans (List.drop_subset _ _)
  have hsub164 : (D.drop 16).take 4 ⊆ D := (List.take_subset _ _).trans (List.drop_subset _ _)
  have hsub20 : D.drop 20 ⊆ D := List.drop_subset _ _
  simp only [List.filter_append, List.filter_cons]
  norm_num
  rw [hseg _ hsub8, hseg _ hsub84, hseg _ hsub124, hseg _ hsub164, hseg _ hsub20]
  have e20 : (D.drop 16).take 4 ++ D.drop 20 = D.drop 16 := by
    have h : D.drop 20 = (D.drop 16).drop 4 := (List.drop_drop 4 16 D).symm
    rw [h, List.take_append_drop]
  have e16 : (D.drop 12).take 4 ++ D.drop 16 = D.drop 12 := by
    have h : D.drop 16 = (D.drop 12).drop 4 := (List.drop_drop 4 12 D).symm
    rw [h, List.take_append_drop]
  have e12 : (D.drop 8).take 4 ++ D.drop 12 = D.drop 8 := by
    have h : D.drop 12 = (D.drop 8).drop 4 := (List.drop_drop 4 8 D).symm
    rw [h, List.take_append_drop]
  rw [e20, e16, e12, List.take_append_drop]

theorem map_uuid_shape (f : Char → Char) (hf : f '-' = '-') (A : List Char) :
    (A.take 8 ++ '-' :: ((A.drop 8).take 4 ++ '-' :: ((A.drop 12).take 4
      ++ '-' :: ((A.drop 16).take 4 ++ '-' :: A.drop 20)))).map f
    = ((A.map f).take 8 ++ '-' :: (((A.map f).drop 8).take 4
      ++ '-' :: (((A.map f).drop 12).take 4
      ++ '-' :: (((A.map f).drop 16).take 4 ++ '-' :: (A.map f).drop 20)))) := by
  simp [List.map_append, List.map_cons, List.map_take, List.map_drop, hf]

theorem uuidChars_shape (u : Nat) :
    uuidChars u = (uuidDigitChars u).take 8
      ++ '-' :: (((uuidDigitChars u).drop 8).take 4
      ++ '-' :: (((uuidDigitChars u).drop 12).take 4
      ++ '-' :: (((uuidDigitChars u).drop 16).take 4 ++ '-' :: (uuidDigitChars u).drop 20))) := by
  unfold uuidChars
  dsimp only
  simp [List.cons_append, List.append_assoc]

theorem string_data_mk (l : List Char) : (String.mk l).data = l := rfl

theorem generate_guid_data (u : Nat) :
    (generate_guid u).data = (uuidChars u).map Char.toUpper := by
  have h : generate_guid u = String.mk ((uuidChars u).map Char.toUpper) := rfl
  rw [h, string_data_mk]

theorem guid_data_eq (u : Nat) :
    (generate_guid u).data =
      ((hexDigits 32 u).map (fun d => Char.toUpper (hexChar d))).take 8
        ++ '-' :: ((((hexDigits 32 u).map (fun d => Char.toUpper (hexChar d))).drop 8).take 4
        ++ '-' :: ((((hexDigits 32 u).map (fun d => Char.toUpper (hexChar d))).drop 12).take 4
        ++ '-' :: ((((hexDigits 32 u).map (fun d => Char.toUpper (hexChar d))).drop 16).take 4
        ++ '-' :: ((hexDigits 32 u).map (fun d => Char.toUpper (hexChar d))).drop 20))) := by
  rw [generate_guid_data, uuidChars_shape, map_uuid_shape Char.toUpper rfl]
  simp only [uuidDigitChars, List.map_map, Function.comp_def]

theorem guid_filter (u : Nat) :
    (generate_guid u).data.filter (fun c => c != '-')
      = (hexDigits 32 u).map (fun d => Char.toUpper (hexChar d)) := by
  have hD : ∀ c ∈ (hexDigits 32 u).map (fun d => Char.toUpper (hexChar d)),
      (c != '-') = true := by
    intro c hc
    rcases List.mem_map.mp hc with ⟨d, hd, rfl⟩
    exact toUpper_hexChar_ne_dash d (hexDigits_lt 32 u d hd)
  rw [guid_data_eq]
  exact filter_uuid_assemble _ hD

theorem guidDecode_generate_guid (u : Nat) : guidDecode (generate_guid u) = u % 16 ^ 32 := by
  unfold guidDecode
  rw [guid_filter]
  rw [unhex_mapped _ (hexDigits_lt 32 u)]
  rw [foldl_hexDigits]
  simp

theorem generate_guid_injective {u v : Nat} (hu : u < 2 ^ 128) (hv : v < 2 ^ 128)
    (h : generate_guid u = generate_guid v) : u = v := by
  have e : (16:Nat) ^ 32 = 2 ^ 128 := by norm_num
  have h2 := congrArg guidDecode h
  rw [guidDecode_generate_guid, guidDecode_generate_guid] at h2
  rwa [Nat.mod_eq_of_lt (e ▸ hu), Nat.mod_eq_of_lt (e ▸ hv)] at h2

theorem generate_guid_charset (u : Nat) : (generate_guid u).data.all guidCharOK = true := by
  rw [List.all_eq_true]
  intro c hc
  rw [guid_data_eq] at hc
  simp only [List.mem_append, List.mem_cons] at hc
  have hmem : c = '-' ∨ c ∈ (hexDigits 32 u).map (fun d => Char.toUpper (hexChar d)) := by
    have hsub8 := List.take_subset 8 ((hexDigits 32 u).map (fun d => Char.toUpper (hexChar d)))
    have hsub84 := (List.take_subset 4 _).trans
      (List.drop_subset 8 ((hexDigits 32 u).map (fun d => Char.toUpper (hexChar d))))
    have hsub124 := (List.take_subset 4 _).trans
      (List.drop_subset 12 ((hexDigits 32 u).map (fun d => Char.toUpper (hexChar d))))
    have hsub164 := (List.take_subset 4 _).trans
      (List.drop_subset 16 ((hexDigits 32 u).map (fun d => Char.toUpper (hexChar d))))
    have hsub20 := List.drop_subset 20 ((hexDigits 32 u).map (fun d => Char.toUpper (hexChar d)))
    rcases hc with h | h | h | h | h | h | h | h | h
    · exact Or.inr (hsub8 h)
    · exact Or.inl h
    · exact Or.inr (hsub84 h)
    · exact Or.inl h
    · exact Or.inr (hsub124 h)
    · exact Or.inl h
    · exact Or.inr (hsub164 h)
    · exact Or.inl h
    · exact Or.inr (hsub20 h)
  rcases hmem with rfl | hmem
  · decide
  · rcases List.mem_map.mp hmem with ⟨d, hd, rfl⟩
    exact guidCharOK_upper_hexChar d (hexDigits_lt 32 u d hd)

theorem genFrom_length (parent : String) (stream : Nat → Nat) :
    ∀ (hosts : List HostEntry) (i : Nat),
      (generate_profilesFrom parent stream i hosts).length = hosts.length := by
  intro hosts
  induction hosts with
  | nil => intro i; rfl
  | cons h rest ih =>
    intro i
    simp only [generate_profilesFrom, List.length_cons, ih]

theorem genFrom_getElem (parent : String) (stream : Nat → Nat) :
    ∀ (hosts : List HostEntry) (i j : Nat),
      (generate_profilesFrom parent stream j hosts)[i]? =
        hosts[i]?.map fun h => create_profile h.name parent (stream (j + i)) := by
  intro hosts
  induction hosts with
  | nil => intro i j; rfl
  | cons h rest ih =>
    intro i j
    cases i with
    | zero => simp [generate_profilesFrom]
    | succ i =>
      simp only [generate_profilesFrom, List.getElem?_cons_succ]
      rw [ih i (j + 1)]
      have : j + 1 + i = j + (i + 1) := by omega
      rw [this]

theorem genFrom_guids (parent : String) (stream : Nat → Nat) :
    ∀ (hosts : List HostEntry) (j : Nat),
      (generate_profilesFrom parent stream j hosts).map Profile.Guid
        = (List.range' j hosts.length).map fun i => generate_guid (stream i) := by
  intro hosts
  induction hosts with
  | nil => intro j; rfl
  | cons h rest ih =>
    intro j
    simp only [generate_profilesFrom, List.length_cons, List.map_cons]
    have hr : List.range' j (rest.length + 1) = j :: List.range' (j + 1) rest.length := rfl
    rw [hr, List.map_cons, ih (j + 1)]
    rfl

theorem clearGuid_create (name pp : String) (u : Nat) :
    clearGuid (create_profile name pp u) =
      { Name := name, Guid := "", dynamicProfileParentName := pp,
        customCommand := "Yes", Command := "ssh " ++ name, Tags := ["ssh"] } := rfl

theorem genFrom_clearGuid (parent : String) (stream₁ stream₂ : Nat → Nat) :
    ∀ (hosts : List HostEntry) (j₁ j₂ : Nat),
      (generate_profilesFrom parent stream₁ j₁ hosts).map clearGuid
        = (generate_profilesFrom parent stream₂ j₂ hosts).map clearGuid := by
  intro hosts
  induction hosts with
  | nil => intro j₁ j₂; rfl
  | cons h rest ih =>
    intro j₁ j₂
    simp only [generate_profilesFrom, List.map_cons, clearGuid_create]
    rw [ih (j₁ + 1) (j₂ + 1)]

/-- C6: profile generation produces exactly one record per host entry in
    input order, each with the alias as Name, ssh plus the alias as
    Command, the singleton ssh tag, the Yes custom-command flag, the given
    parent name, and an identifier that is the uppercase dashed textual
    form of the drawn 128-bit value; distinct draws give pairwise distinct
    identifiers, and apart from the identifier the output is a function of
    the entries and the parent name alone. -/
theorem generate_profiles_spec (hosts : List HostEntry) (parent : String)
    (stream : Nat → Nat) :
    (generate_profiles hosts parent stream).length = hosts.length
    ∧ (∀ i : Nat, (generate_profiles hosts parent stream)[i]? =
        hosts[i]?.map fun h => create_profile h.name parent (stream i))
    ∧ (∀ (name pp : String) (u : Nat), create_profile name pp u =
        ⟨name, generate_guid u, pp, "Yes", "ssh " ++ name, ["ssh"]⟩)
    ∧ (∀ u : Nat, (generate_guid u).data.all guidCharOK = true)
    ∧ (∀ stream₂ : Nat → Nat, (generate_profiles hosts parent stream).map clearGuid
        = (generate_profiles hosts parent stream₂).map clearGuid)
    ∧ ((∀ i, i < hosts.length → stream i < 2 ^ 128) →
       (∀ i j, i < hosts.length → j < hosts.length → i ≠ j → stream i ≠ stream j) →
       ((generate_profiles hosts parent stream).map Profile.Guid).Nodup) := by
  refine ⟨genFrom_length parent stream hosts 0, ?_, fun name pp u => rfl,
    generate_guid_charset, fun stream₂ => genFrom_clearGuid parent stream stream₂ hosts 0 0,
    ?_⟩
  · intro i
    have h := genFrom_getElem parent stream hosts i 0
    simpa using h
  · intro hbound hdist
    unfold generate_profiles
    rw [genFrom_guids parent stream hosts 0]
    apply List.Nodup.map_on
    · intro x hx y hy hxy
      have hx' : x < hosts.length := by
        have := List.mem_range'_1.mp hx
        omega
      have hy' : y < hosts.length := by
        have := List.mem_range'_1.mp hy
        omega
      by_contra hne
      exact hdist x y hx' hy' hne
        (generate_guid_injective (hbound x hx') (hbound y hy') hxy)
    · exact List.nodup_range' 0 hosts.length 1 Nat.one_pos

/-- Witness for C6: with the identity stream, two generated records carry
    distinct identifiers. -/
theorem generate_profiles_spec_witness :
    ((generate_profiles [⟨"a"⟩, ⟨"b"⟩] "Default" (fun i => i)).map Profile.Guid).Nodup :=
  (generate_profiles_spec [⟨"a"⟩, ⟨"b"⟩] "Default" (fun i => i)).2.2.2.2.2
    (by decide) (fun i j _ _ h => h)

theorem parseIncludesAux_mono {recur : String → List String → Option PResult}
    (hrec : VisitedExtends recur) :
    ∀ (files v : List String) (r : PResult),
      parseIncludesAux recur files v = some r → v <:+ r.visited := by
  intro files
  induction files with
  | nil =>
    intro v r h
    simp only [parseIncludesAux] at h
    cases h
    exact List.suffix_refl v
  | cons f rest ih =>
    intro v r h
    simp only [parseIncludesAux] at h
    cases h1 : recur f v with
    | none => rw [h1] at h; cases h
    | some r1 =>
      rw [h1] at h
      dsimp only at h
      cases h2 : parseIncludesAux recur rest r1.visited with
      | none => rw [h2] at h; cases h
      | some r2 =>
        rw [h2] at h
        dsimp only at h
        cases h
        exact (hrec f v r1 h1).trans (ih r1.visited r2 h2)

theorem lineStep_mono {fs : FS} {recur : String → List String → Option PResult}
    (hrec : VisitedExtends recur) (cd line : String) (v : List String) (r : PResult)
    (h : lineStep fs recur cd line v = some r) : v <:+ r.visited := by
  unfold lineStep at h
  dsimp only at h
  split at h
  · cases h; exact List.suffix_refl v
  · split at h
    · cases h; exact List.suffix_refl v
    · split at h
      · cases h; exact List.suffix_refl v
      · rename_i tok args heq
        split at h
        · split at h
          · cases h; exact List.suffix_refl v
          · cases hinc : parseIncludesAux recur
                (resolve_includes fs (joinSpace args) cd) v with
            | none => rw [hinc] at h; cases h
            | some ri =>
              rw [hinc] at h
              simp only [Option.map_some'] at h
              cases h
              exact parseIncludesAux_mono hrec _ v ri hinc
        · split at h
          · split at h
            · cases h; exact List.suffix_refl v
            · cases h; exact List.suffix_refl v
          · cases h; exact List.suffix_refl v

theorem parseLinesAux_mono {fs : FS} {recur : String → List String → Option PResult}
    (hrec : VisitedExtends recur) (cd : String) :
    ∀ (lines v : List String) (r : PResult),
      parseLinesAux fs recur cd lines v = some r → v <:+ r.visited := by
  intro lines
  induction lines with
  | nil =>
    intro v r h
    simp only [parseLinesAux] at h
    cases h
    exact List.suffix_refl v
  | cons line rest ih =>
    intro v r h
    simp only [parseLinesAux] at h
    cases h1 : lineStep fs recur cd line v with
    | none => rw [h1] at h; cases h
    | some r1 =>
      rw [h1] at h
      dsimp only at h
      cases h2 : parseLinesAux fs recur cd rest r1.visited with
      | none => rw [h2] at h; cases h
      | some r2 =>
        rw [h2] at h
        dsimp only at h
        cases h
        exact (lineStep_mono hrec cd line v r1 h1).trans (ih r1.visited r2 h2)

theorem parse_config_file_mono (fs : FS) :
    ∀ fuel : Nat, VisitedExtends (parse_config_file fs fuel) := by
  intro fuel
  induction fuel with
  | zero => intro p v r h; cases h
  | succ n ih =>
    intro p v r h
    unfold parse_config_file at h
    dsimp only at h
    split at h
    · cases h; exact List.suffix_refl v
    · split at h
      · cases h; exact List.suffix_cons _ _
      · split at h
        · cases h; exact List.suffix_cons _ _
        · cases hl : parseLinesAux fs (parse_config_file fs n) (dirname (abspath fs p))
              ((fs.lookupFile (abspath fs p)).getD []) (abspath fs p :: v) with
          | none => rw [hl] at h; cases h
          | some rl =>
            rw [hl] at h
            dsimp only at h
            cases h
            exact (List.suffix_cons _ _).trans (parseLinesAux_mono ih _ _ _ rl hl)

theorem unvisitedCount_mono (fs : FS) {v w : List String} (hvw : v ⊆ w) :
    unvisitedCount fs w ≤ unvisitedCount fs v := by
  unfold unvisitedCount
  apply List.Sublist.length_le
  apply List.monotone_filter_right
  intro k hk
  simp only [decide_eq_true_eq] at hk ⊢
  exact fun hv => hk (hvw hv)

theorem unvisitedCount_insert_lt (fs : FS) {k : String} {v : List String}
    (hk : k ∈ fs.files.map Prod.fst) (hkv : k ∉ v) :
    unvisitedCount fs (k :: v) < unvisitedCount fs v := by
  unfold unvisitedCount
  have main : ∀ l : List String, k ∈ l →
      (l.filter (fun x => decide (x ∉ k :: v))).length <
        (l.filter (fun x => decide (x ∉ v))).length := by
    intro l hkl
    induction l with
    | nil => cases hkl
    | cons a t ih =>
      by_cases hak : a = k
      · subst hak
        simp only [List.filter_cons]
        rw [show (decide (a ∉ a :: v)) = false by simp,
          show (decide (a ∉ v)) = true by simpa using hkv]
        have hle : (t.filter (fun x => decide (x ∉ a :: v))).length ≤
            (t.filter (fun x => decide (x ∉ v))).length := by
          apply List.Sublist.length_le
          apply List.monotone_filter_right
          intro x hx
          simp only [decide_eq_true_eq, List.mem_cons, not_or] at hx ⊢
          exact hx.2
        rw [if_neg (by simp), if_pos (by trivial)]
        simp only [List.length_cons]
        omega
      · have hkt : k ∈ t := by
          rcases List.mem_cons.mp hkl with h | h
          · exact absurd h.symm hak
          · exact h
        simp only [List.filter_cons]
        by_cases hav : a ∈ v
        · rw [show (decide (a ∉ v)) = false by simp [hav],
            show (decide (a ∉ k :: v)) = false by simp [List.mem_cons, hav]]
          exact ih hkt
        · rw [show (decide (a ∉ v)) = true by simp [hav],
            show (decide (a ∉ k :: v)) = true by simp [List.mem_cons, hav, hak]]
          simp only [List.length_cons]
          exact Nat.succ_lt_succ (ih hkt)
  exact main _ hk

theorem lookup_isSome_mem_keys :
    ∀ (l : List (String × List String)) (k : String),
      (l.lookup k).isSome → k ∈ l.map Prod.fst := by
  intro l
  induction l with
  | nil => intro k h; simp [List.lookup] at h
  | cons a t ih =>
    intro k h
    simp only [List.lookup] at h
    by_cases hak : k = a.1
    · simp [hak]
    · rw [show (k == a.1) = false by simpa using hak] at h
      simp only [List.map_cons, List.mem_cons]
      exact Or.inr (ih k h)

theorem parseIncludesAux_total {fs : FS} {recur : String → List String → Option PResult}
    {n : Nat} (htot : ∀ q w, unvisitedCount fs w < n → (recur q w).isSome)
    (hmono : VisitedExtends recur) :
    ∀ (files w : List String), unvisitedCount fs w < n →
      (parseIncludesAux recur files w).isSome := by
  intro files
  induction files with
  | nil => intro w hw; rfl
  | cons f rest ih =>
    intro w hw
    obtain ⟨r1, hr1⟩ := Option.isSome_iff_exists.mp (htot f w hw)
    have hw1 : unvisitedCount fs r1.visited < n :=
      Nat.lt_of_le_of_lt (unvisitedCount_mono fs (hmono f w r1 hr1).subset) hw
    obtain ⟨r2, hr2⟩ := Option.isSome_iff_exists.mp (ih r1.visited hw1)
    simp only [parseIncludesAux]
    rw [hr1]
    dsimp only
    rw [hr2]
    rfl

theorem lineStep_total {fs : FS} {recur : String → List String → Option PResult}
    {n : Nat} (htot : ∀ q w, unvisitedCount fs w < n → (recur q w).isSome)
    (hmono : VisitedExtends recur) (cd line : String) :
    ∀ w : List String, unvisitedCount fs w < n → (lineStep fs recur cd line w).isSome := by
  intro w hw
  unfold lineStep
  dsimp only
  split
  · rfl
  · split
    · rfl
    · split
      · rfl
      · split
        · split
          · rfl
          · obtain ⟨ri, hri⟩ := Option.isSome_iff_exists.mp
              (parseIncludesAux_total htot hmono _ w hw)
            rw [hri]
            rfl
        · split
          · split
            · rfl
            · rfl
          · rfl

theorem parseLinesAux_total {fs : FS} {recur : String → List String → Option PResult}
    {n : Nat} (htot : ∀ q w, unvisitedCount fs w < n → (recur q w).isSome)
    (hmono : VisitedExtends recur) (cd : String) :
    ∀ (lines : List String) (w : List String), unvisitedCount fs w < n →
      (parseLinesAux fs recur cd lines w).isSome := by
  intro lines
  induction lines with
  | nil => intro w hw; rfl
  | cons line rest ih =>
    intro w hw
    obtain ⟨r1, hr1⟩ := Option.isSome_iff_exists.mp (lineStep_total htot hmono cd line w hw)
    have hw1 : unvisitedCount fs r1.visited < n :=
      Nat.lt_of_le_of_lt
        (unvisitedCount_mono fs (lineStep_mono hmono cd line w r1 hr1).subset) hw
    obtain ⟨r2, hr2⟩ := Option.isSome_iff_exists.mp (ih r1.visited hw1)
    simp only [parseLinesAux]
    rw [hr1]
    dsimp only
    rw [hr2]
    rfl

theorem parse_config_file_total (fs : FS) :
    ∀ (fuel : Nat) (p : String) (v : List String),
      unvisitedCount fs v < fuel → (parse_config_file fs fuel p v).isSome := by
  intro fuel
  induction fuel with
  | zero => intro p v hv; cases hv
  | succ n ih =>
    intro p v hv
    unfold parse_config_file
    dsimp only
    by_cases hvis : abspath fs p ∈ v
    · rw [if_pos hvis]; rfl
    · rw [if_neg hvis]
      cases hex : fs.pathExists (abspath fs p) with
      | false =>
        rw [if_pos (show (!false) = true from rfl)]
        rfl
      | true =>
        rw [if_neg (show ¬(!true) = true by simp)]
        cases hrd : fs.readable (abspath fs p) with
        | false =>
          rw [if_pos (show (!false) = true from rfl)]
          rfl
        | true =>
          rw [if_neg (show ¬(!true) = true by simp)]
          have hkeys : abspath fs p ∈ fs.files.map Prod.fst :=
            lookup_isSome_mem_keys fs.files (abspath fs p) hex
          have hlt : unvisitedCount fs (abspath fs p :: v) < n := by
            have hdec := unvisitedCount_insert_lt fs hkeys hvis
            omega
          obtain ⟨r, hr⟩ := Option.isSome_iff_exists.mp
            (parseLinesAux_total (fun q w hw => ih q w hw) (parse_config_file_mono fs n)
              (dirname (abspath fs p)) ((fs.lookupFile (abspath fs p)).getD [])
              (abspath fs p :: v) hlt)
          rw [hr]
          rfl

/-- C4: resolution always terminates, in that recursion bounded by the
    number of still-unvisited existing files suffices, and a second
    encounter of an already-visited file returns immediately with zero
    entries and only the skip warning, stopping the recursion on that
    branch. -/
theorem include_cycles_terminate (fs : FS) (fuel : Nat) (p : String) (v : List String) :
    (unvisitedCount fs v < fuel → (parse_config_file fs fuel p v).isSome)
    ∧ (0 < fuel → abspath fs p ∈ v →
        parse_config_file fs fuel p v =
          some ⟨[], v, [Diag.visitedSkip (abspath fs p)]⟩) := by
  constructor
  · exact parse_config_file_total fs fuel p v
  · intro hf hvis
    cases fuel with
    | zero => cases hf
    | succ n =>
      unfold parse_config_file
      dsimp only
      rw [if_pos hvis]

/-- Witness for C4 on the concrete two-file cycle: resolution of the
    cyclic pair succeeds, and re-entering the already-visited file yields
    zero entries. -/
theorem include_cycles_terminate_witness :
    (parse_config_file cycFS 3 "/a" []).isSome
    ∧ parse_config_file cycFS 2 "/a" ["/a"] =
        some ⟨[], ["/a"], [Diag.visitedSkip "/a"]⟩ :=
  ⟨(include_cycles_terminate cycFS 3 "/a" []).1 (by decide),
   (include_cycles_terminate cycFS 2 "/a" ["/a"]).2 (by decide) (by decide)⟩

theorem parsingsOf_append (a b : List Diag) :
    parsingsOf (a ++ b) = parsingsOf a ++ parsingsOf b :=
  List.filterMap_append _ _ _

theorem parsingsOf_parsing_cons (p : String) (m : List Diag) :
    parsingsOf (Diag.parsing p :: m) = p :: parsingsOf m := rfl

theorem parsingsOf_includeResolved_cons (k : Nat) (m : List Diag) :
    parsingsOf (Diag.includeResolved k :: m) = parsingsOf m := rfl

theorem parsingsOf_nil : parsingsOf [] = [] := rfl

theorem parsingsOf_infoMsgs (k : Nat) (m : List Diag) :
    parsingsOf ([Diag.includeResolved k] ++ m) = parsingsOf m := by
  rw [parsingsOf_append, parsingsOf_includeResolved_cons, parsingsOf_nil, List.nil_append]

theorem fresh_seq {v : List String} {r1 r2 : PResult}
    (h1n : (parsingsOf r1.msgs).Nodup)
    (h1f : ∀ q ∈ parsingsOf r1.msgs, q ∉ v ∧ q ∈ r1.visited)
    (hm1 : v <:+ r1.visited)
    (h2n : (parsingsOf r2.msgs).Nodup)
    (h2f : ∀ q ∈ parsingsOf r2.msgs, q ∉ r1.visited ∧ q ∈ r2.visited)
    (hm2 : r1.visited <:+ r2.visited) :
    (parsingsOf (r1.msgs ++ r2.msgs)).Nodup
    ∧ ∀ q ∈ parsingsOf (r1.msgs ++ r2.msgs), q ∉ v ∧ q ∈ r2.visited := by
  rw [parsingsOf_append]
  constructor
  · rw [List.nodup_append]
    exact ⟨h1n, h2n, fun q hq1 hq2 => (h2f q hq2).1 ((h1f q hq1).2)⟩
  · intro q hq
    rcases List.mem_append.mp hq with h | h
    · exact ⟨(h1f q h).1, hm2.subset ((h1f q h).2)⟩
    · exact ⟨fun hv => (h2f q h).1 (hm1.subset hv), (h2f q h).2⟩

theorem parseIncludesAux_fresh {recur : String → List String → Option PResult}
    (hmono : VisitedExtends recur) (hfresh : FreshParsings recur) :
    ∀ (files v : List String) (r : PResult),
      parseIncludesAux recur files v = some r →
        (parsingsOf r.msgs).Nodup ∧ ∀ q ∈ parsingsOf r.msgs, q ∉ v ∧ q ∈ r.visited := by
  intro files
  induction files with
  | nil =>
    intro v r h
    simp only [parseIncludesAux] at h
    cases h
    exact ⟨List.nodup_nil, by intro q hq; cases hq⟩
  | cons f rest ih =>
    intro v r h
    simp only [parseIncludesAux] at h
    cases h1 : recur f v with
    | none => rw [h1] at h; cases h
    | some r1 =>
      rw [h1] at h
      dsimp only at h
      cases h2 : parseIncludesAux recur rest r1.visited with
      | none => rw [h2] at h; cases h
      | some r2 =>
        rw [h2] at h
        dsimp only at h
        cases h
        obtain ⟨h1n, h1f⟩ := hfresh f v r1 h1
        obtain ⟨h2n, h2f⟩ := ih r1.visited r2 h2
        exact fresh_seq h1n h1f (hmono f v r1 h1) h2n h2f
          (parseIncludesAux_mono hmono rest r1.visited r2 h2)

theorem lineStep_fresh {fs : FS} {recur : String → List String → Option PResult}
    (hmono : VisitedExtends recur) (hfresh : FreshParsings recur)
    (cd line : String) (v : List String) (r : PResult)
    (h : lineStep fs recur cd line v = some r) :
    (parsingsOf r.msgs).Nodup ∧ ∀ q ∈ parsingsOf r.msgs, q ∉ v ∧ q ∈ r.visited := by
  unfold lineStep at h
  dsimp only at h
  split at h
  · cases h; exact ⟨List.nodup_nil, by intro q hq; cases hq⟩
  · split at h
    · cases h; exact ⟨List.nodup_nil, by intro q hq; cases hq⟩
    · split at h
      · cases h; exact ⟨List.nodup_nil, by intro q hq; cases hq⟩
      · rename_i tok args heq
        split at h
        · split at h
          · cases h; exact ⟨List.nodup_nil, by intro q hq; cases hq⟩
          · cases hinc : parseIncludesAux recur
                (resolve_includes fs (joinSpace args) cd) v with
            | none => rw [hinc] at h; cases h
            | some ri =>
              rw [hinc] at h
              simp only [Option.map_some'] at h
              cases h
              obtain ⟨hn, hf⟩ := parseIncludesAux_fresh hmono hfresh _ v ri hinc
              constructor
              · dsimp only
                split
                · exact hn
                · rw [parsingsOf_infoMsgs]
                  exact hn
              · intro q hq
                dsimp only at hq
                have hq' : q ∈ parsingsOf ri.msgs := by
                  revert hq
                  split
                  · exact fun hq => hq
                  · rw [parsingsOf_infoMsgs]
                    exact fun hq => hq
                exact hf q hq'
        · split at h
          · split at h
            · cases h; exact ⟨List.nodup_nil, by intro q hq; cases hq⟩
            · cases h; exact ⟨List.nodup_nil, by intro q hq; cases hq⟩
          · cases h; exact ⟨List.nodup_nil, by intro q hq; cases hq⟩

theorem parseLinesAux_fresh {fs : FS} {recur : String → List String → Option PResult}
    (hmono : VisitedExtends recur) (hfresh : FreshParsings recur) (cd : String) :
    ∀ (lines v : List String) (r : PResult),
      parseLinesAux fs recur cd lines v = some r →
        (parsingsOf r.msgs).Nodup ∧ ∀ q ∈ parsingsOf r.msgs, q ∉ v ∧ q ∈ r.visited := by
  intro lines
  induction lines with
  | nil =>
    intro v r h
    simp only [parseLinesAux] at h
    cases h
    exact ⟨List.nodup_nil, by intro q hq; cases hq⟩
  | cons line rest ih =>
    intro v r h
    simp only [parseLinesAux] at h
    cases h1 : lineStep fs recur cd line v with
    | none => rw [h1] at h; cases h
    | some r1 =>
      rw [h1] at h
      dsimp only at h
      cases h2 : parseLinesAux fs recur cd rest r1.visited with
      | none => rw [h2] at h; cases h
      | some r2 =>
        rw [h2] at h
        dsimp only at h
        cases h
        obtain ⟨h1n, h1f⟩ := lineStep_fresh hmono hfresh cd line v r1 h1
        obtain ⟨h2n, h2f⟩ := ih r1.visited r2 h2
        exact fresh_seq h1n h1f (lineStep_mono hmono cd line v r1 h1) h2n h2f
          (parseLinesAux_mono hmono cd rest r1.visited r2 h2)

theorem parse_config_file_fresh (fs : FS) :
    ∀ fuel : Nat, FreshParsings (parse_config_file fs fuel) := by
  intro fuel
  induction fuel with
  | zero => intro p v r h; cases h
  | succ n ih =>
    intro p v r h
    unfold parse_config_file at h
    dsimp only at h
    split at h
    · cases h; exact ⟨List.nodup_nil, by intro q hq; cases hq⟩
    · rename_i hvis
      split at h
      · cases h; exact ⟨List.nodup_nil, by intro q hq; cases hq⟩
      · split at h
        · cases h
          refine ⟨List.nodup_cons.mpr ⟨by simp, List.nodup_nil⟩, ?_⟩
          intro q hq
          have : q = abspath fs p := by
            rcases List.mem_cons.mp hq with h | h
            · exact h
            · cases h
          subst this
          exact ⟨hvis, List.mem_cons_self _ _⟩
        · cases hl : parseLinesAux fs (parse_config_file fs n) (dirname (abspath fs p))
              ((fs.lookupFile (abspath fs p)).getD []) (abspath fs p :: v) with
          | none => rw [hl] at h; cases h
          | some rl =>
            rw [hl] at h
            dsimp only at h
            cases h
            obtain ⟨hn, hf⟩ := parseLinesAux_fresh (parse_config_file_mono fs n) ih _ _ _ rl hl
            have hmem : abspath fs p :: v <:+ rl.visited :=
              parseLinesAux_mono (parse_config_file_mono fs n) _ _ _ rl hl
            rw [parsingsOf_parsing_cons]
            constructor
            · exact List.nodup_cons.mpr
                ⟨fun hmem' => (hf _ hmem').1 (List.mem_cons_self _ _), hn⟩
            · intro q hq
              rcases List.mem_cons.mp hq with rfl | hq'
              · exact ⟨hvis, hmem.subset (List.mem_cons_self _ _)⟩
              · exact ⟨fun hv => (hf q hq').1 (List.mem_cons_of_mem _ hv), (hf q hq').2⟩

/-- Counterexample to C5: the resolver keys its visited set on the
    syntactic absolute path only, so one regular file reachable both by
    its real path and by a symlinked spelling is opened and parsed twice
    in a single top-level call, and its host contributes two entries; the
    two openings are of the same canonical (symlink-resolved) file. -/
theorem canonical_path_counterexample :
    parse_ssh_config symFS 4 "/cfg" =
      some ⟨[⟨"x"⟩, ⟨"x"⟩], ["/b/link", "/a/conf", "/cfg"],
        [Diag.parsing "/cfg", Diag.includeResolved 1, Diag.parsing "/a/conf",
         Diag.includeResolved 1, Diag.parsing "/b/link"]⟩
    ∧ symFS.realpathFn "/a/conf" = symFS.realpathFn "/b/link"
    ∧ ((parsingsOf [Diag.parsing "/cfg", Diag.includeResolved 1, Diag.parsing "/a/conf",
         Diag.includeResolved 1, Diag.parsing "/b/link"]).filter
           (fun q => symFS.realpathFn q == "/a/conf")).length = 2 :=
  ⟨by decide, by decide, by decide⟩

/-- C5 amended: files are identified by os.path.abspath alone, a purely
    syntactic absolute form without symlink or variable resolution, and
    one visited set shared across the whole recursive resolution ensures
    each such absolute path is opened and parsed at most once per
    top-level call: the parsed paths are pairwise distinct, fresh with
    respect to the initial visited set, and recorded in the final one. -/
theorem visited_once_by_abspath (fs : FS) (fuel : Nat) (p : String) (v : List String)
    (r : PResult) (h : parse_config_file fs fuel p v = some r) :
    (parsingsOf r.msgs).Nodup ∧ ∀ q ∈ parsingsOf r.msgs, q ∉ v ∧ q ∈ r.visited :=
  parse_config_file_fresh fs fuel p v r h

/-- Witness for C5 amended at the concrete two-file scenario. -/
theorem visited_once_by_abspath_witness :
    (parsingsOf [Diag.parsing "/ssh/config", Diag.includeResolved 1,
        Diag.parsing "/ssh/other.conf"]).Nodup
    ∧ ∀ q ∈ parsingsOf [Diag.parsing "/ssh/config", Diag.includeResolved 1,
        Diag.parsing "/ssh/other.conf"],
        q ∉ ([] : List String) ∧ q ∈ ["/ssh/other.conf", "/ssh/config"] :=
  visited_once_by_abspath scenFS 2 "/ssh/config" []
    ⟨[⟨"alpha"⟩, ⟨"beta"⟩, ⟨"gamma"⟩], ["/ssh/other.conf", "/ssh/config"],
      [Diag.parsing "/ssh/config", Diag.includeResolved 1, Diag.parsing "/ssh/other.conf"]⟩
    (by decide)

/-- Counterexample to C7: an Include pattern matching zero files produces
    no message at all, not a diagnostic: the run emits only the parsing
    notice for the config itself, while still parsing the Host line that
    follows the barren Include. -/
theorem zero_match_include_counterexample :
    parse_ssh_config zmFS 1 "/cfg" =
      some ⟨[⟨"alpha"⟩], ["/cfg"], [Diag.parsing "/cfg"]⟩ := by
  decide

/-- C7 amended: a missing file, an unreadable file, and a repeated visit
    each produce exactly their diagnostic and zero entries without
    aborting; an Include whose pattern matches zero files contributes zero
    entries and zero messages, and parsing continues with the remaining
    lines; a directive line with too few tokens is silently skipped. -/
theorem resolution_error_handling (fs : FS) :
    (∀ (fuel : Nat) (p : String) (v : List String), 0 < fuel →
      abspath fs p ∉ v → fs.pathExists (abspath fs p) = false →
      parse_config_file fs fuel p v =
        some ⟨[], abspath fs p :: v, [Diag.notFound (abspath fs p)]⟩)
    ∧ (∀ (fuel : Nat) (p : String) (v : List String), 0 < fuel →
        abspath fs p ∉ v → fs.pathExists (abspath fs p) = true →
        fs.readable (abspath fs p) = false →
        parse_config_file fs fuel p v =
          some ⟨[], abspath fs p :: v,
            [Diag.parsing (abspath fs p), Diag.readError (abspath fs p)]⟩)
    ∧ (∀ (fuel : Nat) (p : String) (v : List String), 0 < fuel →
        abspath fs p ∈ v →
        parse_config_file fs fuel p v = some ⟨[], v, [Diag.visitedSkip (abspath fs p)]⟩)
    ∧ (∀ (recur : String → List String → Option PResult) (cd line : String)
        (v : List String) (tok : String) (args : List String),
        splitTokens (pyStrip line) = tok :: args →
        pyStrip line ≠ "" → headIs (pyStrip line) '#' = false →
        lowerStr tok = "include" → args ≠ [] →
        resolve_includes fs (joinSpace args) cd = [] →
        lineStep fs recur cd line v = some ⟨[], v, []⟩
        ∧ ∀ rest, parseLinesAux fs recur cd (line :: rest) v
            = parseLinesAux fs recur cd rest v)
    ∧ (∀ (recur : String → List String → Option PResult) (cd line : String)
        (v : List String) (tok : String),
        splitTokens (pyStrip line) = [tok] →
        pyStrip line ≠ "" → headIs (pyStrip line) '#' = false →
        (lowerStr tok = "include" ∨ lowerStr tok = "host") →
        lineStep fs recur cd line v = some ⟨[], v, []⟩) := by
  refine ⟨?_, ?_, ?_, ?_, ?_⟩
  · intro fuel p v hf hvis hex
    cases fuel with
    | zero => cases hf
    | succ n =>
      unfold parse_config_file
      dsimp only
      rw [if_neg hvis, if_pos (show (!fs.pathExists (abspath fs p)) = true by rw [hex]; rfl)]
  · intro fuel p v hf hvis hex hrd
    cases fuel with
    | zero => cases hf
    | succ n =>
      unfold parse_config_file
      dsimp only
      rw [if_neg hvis, if_neg (show ¬(!fs.pathExists (abspath fs p)) = true by rw [hex]; simp),
        if_pos (show (!fs.readable (abspath fs p)) = true by rw [hrd]; rfl)]
  · intro fuel p v hf hvis
    cases fuel with
    | zero => cases hf
    | succ n =>
      unfold parse_config_file
      dsimp only
      rw [if_pos hvis]
  · intro recur cd line v tok args heq h1 h2 h4 h5 h6
    have hstep : lineStep fs recur cd line v = some ⟨[], v, []⟩ := by
      unfold lineStep
      dsimp only
      rw [if_neg h1, if_neg (show ¬headIs (pyStrip line) '#' = true by rw [h2]; simp), heq]
      dsimp only
      rw [if_pos h4, if_neg (show ¬args.isEmpty = true by
        intro hh
        exact h5 (List.isEmpty_iff.mp hh)), h6]
      rfl
    refine ⟨hstep, ?_⟩
    intro rest
    simp only [parseLinesAux]
    rw [hstep]
    dsimp only
    cases hrest : parseLinesAux fs recur cd rest v with
    | none => rfl
    | some r2 => rfl
  · intro recur cd line v tok heq h1 h2 hkw
    unfold lineStep
    dsimp only
    rw [if_neg h1, if_neg (show ¬headIs (pyStrip line) '#' = true by rw [h2]; simp), heq]
    dsimp only
    rcases hkw with hkw | hkw
    · rw [if_pos hkw]
      rfl
    · by_cases hinc : lowerStr tok = "include"
      · rw [if_pos hinc]
        rfl
      · rw [if_neg hinc, if_pos hkw]
        rfl

/-- Witness for C7 amended: a zero-match Include line contributes nothing
    and no message, and a missing file yields exactly its warning. -/
theorem resolution_error_handling_witness :
    lineStep zmFS (parse_config_file zmFS 0) "/" "Include missing.d/stuff" [] =
      some ⟨[], [], []⟩
    ∧ parse_config_file zmFS 1 "/nope" [] =
        some ⟨[], ["/nope"], [Diag.notFound "/nope"]⟩ :=
  ⟨((resolution_error_handling zmFS).2.2.2.1 (parse_config_file zmFS 0) "/"
      "Include missing.d/stuff" [] "Include" ["missing.d/stuff"]
      (by decide) (by decide) (by decide) (by decide) (by decide) (by decide)).1,
   (resolution_error_handling zmFS).1 1 "/nope" [] (by decide) (by decide) (by decide)⟩
